import Mathlib

/-!
Verification of the Tracking-App core logic: the smart time-range parser
(`parseSmartTime` in `src/App.jsx`), the duration calculator and submit
handler (`calculateDuration` / `handleTimeSubmit` in `src/App.jsx`), the
range aggregation (`SummaryView` in `src/components/SummaryView.jsx`),
the ranked breakdown views, the CSV export (`generateCSV` in
`src/components/SummaryView.jsx`), and the legacy `SummaryView` variant
found in `src/unnamed/part_000`.

Numbers that are JavaScript floats in the source (durations, amounts) are
modelled as rationals; all inputs in scope are minute-valued wall-clock
times and decimal amounts, for which JS double arithmetic is exact except
for `toFixed(2)` rounding, which is modelled exactly (see `jsToFixed2`).
Calendar days are modelled as natural-number day indices; the source's
`format(day, 'yyyy-MM-dd')` key is modelled by the injective `dayKey`.
-/

namespace Tracker

/-! ## Character-level helpers for the smart time parser

`parseSmartTime` (src/App.jsx lines 11-31) does
`input.toLowerCase().replace(/\s+/g, ' ').trim()` and then splits on the
regex `/\s+(?:to|-|until)\s+/`.  We model strings as their character
lists.  `jsToLowerChar` is `toLowerCase` on the ASCII range (all
characters the parser can accept are ASCII).  JS `\s` is modelled by the
ASCII whitespace characters. -/

def jsToLowerChar (c : Char) : Char :=
  if 'A' ≤ c ∧ c ≤ 'Z' then Char.ofNat (c.toNat + 32) else c

def isWSChar (c : Char) : Bool :=
  c == ' ' || c == '\t' || c == '\n' || c == '\r'

/-- Model of `replace(/\s+/g, ' ')`: each maximal whitespace run becomes a
single space.  The boolean records whether the previous character was
whitespace (i.e. we are inside a run that already emitted its space). -/
def collapseAux : Bool → List Char → List Char
  | _, [] => []
  | prev, c :: cs =>
    if isWSChar c then
      if prev then collapseAux true cs else ' ' :: collapseAux true cs
    else c :: collapseAux false cs

/-- Model of `String.prototype.trim`. -/
def trimWS (l : List Char) : List Char :=
  ((l.dropWhile isWSChar).reverse.dropWhile isWSChar).reverse

/-- The cleaned text: `input.toLowerCase().replace(/\s+/g, ' ').trim()`. -/
def cleanChars (l : List Char) : List Char :=
  trimWS (collapseAux false (l.map jsToLowerChar))

def splitSpaceAux : List Char → List Char → List (List Char)
  | cur, [] => [cur.reverse]
  | cur, c :: cs =>
    if c == ' ' then cur.reverse :: splitSpaceAux [] cs
    else splitSpaceAux (c :: cur) cs

/-- The cleaned text cut at its (single) spaces into words. -/
def splitSpace (l : List Char) : List (List Char) := splitSpaceAux [] l

def isSepWord (w : List Char) : Bool :=
  decide (w = ['t', 'o']) || decide (w = ['-']) || decide (w = ['u', 'n', 't', 'i', 'l'])

/-- Word-level realization of `clean.split(/\s+(?:to|-|until)\s+/)` on the
whitespace-normalized, trimmed text.  A word is a separator occurrence
exactly when it is `to`, `-` or `until`, it is preceded by a space that
was not consumed by the previous separator match (equivalently: the
current segment is non-empty), and it is followed by a space (it is not
the last word).  `cur` holds the current segment's words, reversed. -/
def splitSepAux : List (List Char) → List (List Char) → List (List (List Char))
  | cur, [] => [cur.reverse]
  | cur, w :: ws =>
    if isSepWord w && !cur.isEmpty && !ws.isEmpty then
      cur.reverse :: splitSepAux [] ws
    else splitSepAux (w :: cur) ws

/-- The segments produced by the split, as character lists (words of one
segment rejoined with single spaces, as in the cleaned source string). -/
def segmentsOf (l : List Char) : List (List Char) :=
  (splitSepAux [] (splitSpace (cleanChars l))).map (List.intercalate [' '])

/-! ## date-fns `parse` for the six accepted formats

`parsePart` tries `['HH:mm', 'H:mm', 'h:mm a', 'h:mma', 'ha', 'h a']` in
order; the first format that yields a valid date wins, and the result is
re-rendered with `format(d, 'HH:mm')`.  date-fns numeric tokens `HH`,
`H`, `h`, `mm` all match one or two digits (`parseNDigits`), with range
validation (0-23 for `H`/`HH`, 1-12 for `h`, 0-59 for `mm`); a literal
character in the format matches exactly that character; the whole input
must be consumed, otherwise the parse is invalid. -/

def digitVal (c : Char) : Nat := c.toNat - 48

/-- date-fns `parseNDigits(2)`: greedily take one or two digits. -/
def parseDigits2 : List Char → Option (Nat × List Char)
  | [] => none
  | c :: cs =>
    if c.isDigit then
      match cs with
      | c2 :: cs2 =>
        if c2.isDigit then some (digitVal c * 10 + digitVal c2, cs2)
        else some (digitVal c, c2 :: cs2)
      | [] => some (digitVal c, [])
    else none

def consumeOptChar (c : Char) : List Char → List Char
  | [] => []
  | x :: xs => if x == c then xs else x :: xs

def consumeOptWS : List Char → List Char
  | [] => []
  | x :: xs => if isWSChar x then xs else x :: xs

/-- The date-fns `a` (day-period) token on already-lowercased text: the
en-US locale pattern `[ap]\.?\s?m\.?` matched greedily; the result is
whether the period is `pm` and the unconsumed remainder.  (The locale
also admits the words `midnight`, `noon`, `morning`, ... — none of those
can follow the digits required by the `h` token in any input within the
spec's accepted formats, so they are not modelled.) -/
def parseMeridiem : List Char → Option (Bool × List Char)
  | [] => none
  | c :: cs =>
    if c == 'a' || c == 'p' then
      some (c == 'p',
        consumeOptChar '.' (consumeOptChar 'm' (consumeOptWS (consumeOptChar '.' cs))))
    else none

/-- 12-hour value plus meridiem to a 24-hour value: `12am` is `0`,
`12pm` is `12`. -/
def hour24 (h : Nat) (pm : Bool) : Nat := h % 12 + (if pm then 12 else 0)

/-- Format `HH:mm` (and equally `H:mm`): hour 0-23, colon, minutes 0-59,
nothing left over. -/
def tryHHmm (l : List Char) : Option (Nat × Nat) :=
  match parseDigits2 l with
  | none => none
  | some (h, r) =>
    match r with
    | ':' :: r2 =>
      match parseDigits2 r2 with
      | some (m, []) => if h ≤ 23 ∧ m ≤ 59 then some (h, m) else none
      | _ => none
    | _ => none

/-- Format `H:mm` parses exactly as `HH:mm` does (date-fns numeric tokens
accept one or two digits either way). -/
def tryHmm (l : List Char) : Option (Nat × Nat) := tryHHmm l

/-- Format `h:mm a`. -/
def tryHmmSpA (l : List Char) : Option (Nat × Nat) := do
  let (h, r) ← parseDigits2 l
  if 1 ≤ h ∧ h ≤ 12 then
    match r with
    | ':' :: r2 => do
      let (m, r3) ← parseDigits2 r2
      if m ≤ 59 then
        match r3 with
        | ' ' :: r4 => do
          let (pm, r5) ← parseMeridiem r4
          if r5.isEmpty then some (hour24 h pm, m) else none
        | _ => none
      else none
    | _ => none
  else none

/-- Format `h:mma`. -/
def tryHmmA (l : List Char) : Option (Nat × Nat) := do
  let (h, r) ← parseDigits2 l
  if 1 ≤ h ∧ h ≤ 12 then
    match r with
    | ':' :: r2 => do
      let (m, r3) ← parseDigits2 r2
      if m ≤ 59 then do
        let (pm, r5) ← parseMeridiem r3
        if r5.isEmpty then some (hour24 h pm, m) else none
      else none
    | _ => none
  else none

/-- Format `ha`. -/
def tryHA (l : List Char) : Option (Nat × Nat) := do
  let (h, r) ← parseDigits2 l
  if 1 ≤ h ∧ h ≤ 12 then do
    let (pm, r5) ← parseMeridiem r
    if r5.isEmpty then some (hour24 h pm, 0) else none
  else none

/-- Format `h a`. -/
def tryHspA (l : List Char) : Option (Nat × Nat) := do
  let (h, r) ← parseDigits2 l
  if 1 ≤ h ∧ h ≤ 12 then
    match r with
    | ' ' :: r4 => do
      let (pm, r5) ← parseMeridiem r4
      if r5.isEmpty then some (hour24 h pm, 0) else none
    | _ => none
  else none

/-- The `for (let fmt of formats)` loop of `parsePart`: first format (in
the fixed priority order) whose parse is valid wins. -/
def parsePartHM (l : List Char) : Option (Nat × Nat) :=
  match tryHHmm l with
  | some r => some r
  | none =>
    match tryHmm l with
    | some r => some r
    | none =>
      match tryHmmSpA l with
      | some r => some r
      | none =>
        match tryHmmA l with
        | some r => some r
        | none =>
          match tryHA l with
          | some r => some r
          | none => tryHspA l

/-- `format(d, 'HH:mm')`: canonical zero-padded rendering. -/
def toHHMMList (h m : Nat) : List Char :=
  [Nat.digitChar (h / 10), Nat.digitChar (h % 10), ':',
   Nat.digitChar (m / 10), Nat.digitChar (m % 10)]

def toHHMM (h m : Nat) : String := ⟨toHHMMList h m⟩

/-- `parsePart` of src/App.jsx lines 17-25: a valid parse under the first
matching format, re-rendered as `HH:mm` (never the empty string, so JS
truthiness of the result coincides with non-nullness). -/
def parsePart (l : List Char) : Option String :=
  (parsePartHM l).map (fun hm => toHHMM hm.1 hm.2)

/-- `parseSmartTime` of src/App.jsx lines 11-31. -/
def parseSmartTime (input : String) : Option (String × String) :=
  if input.data.isEmpty then none
  else
    match segmentsOf input.data with
    | [p1, p2] =>
      match parsePart p1, parsePart p2 with
      | some s, some e => some (s, e)
      | _, _ => none
    | _ => none

/-! ## Duration calculator and submit handler (src/App.jsx lines 299-317)

`calculateDuration` parses both endpoints with the single format `HH:mm`,
takes `differenceInMinutes(e, s)` (exact whole minutes for minute-valued
same-day times) and returns `Number((diffMins / 60).toFixed(2))` when the
difference is positive and `0` otherwise.  `jsToFixed2` is `toFixed(2)`
on an exact rational: for minute-valued inputs the scaled value
`diffMins * 100 / 60` is never within `1/3` of a rounding tie, so double
rounding and tie-breaking cannot differ from exact nearest rounding. -/

def jsToFixed2 (q : ℚ) : ℚ := (round (q * 100) : ℤ) / 100

def calculateDuration (s e : String) : ℚ :=
  if s.data.isEmpty || e.data.isEmpty then 0
  else
    match tryHHmm s.data, tryHHmm e.data with
    | some (h1, m1), some (h2, m2) =>
      let diffMins : ℤ := (h2 * 60 + m2 : ℕ) - (h1 * 60 + m1 : ℕ)
      if 0 < diffMins then jsToFixed2 ((diffMins : ℚ) / 60) else 0
    | _, _ => 0

structure TimeEntryRec where
  task : String
  startTime : String
  endTime : String
  duration : ℚ
deriving DecidableEq, Repr

structure ExpenseRec where
  description : String
  amount : ℚ
deriving DecidableEq, Repr

/-- `handleTimeSubmit` of src/App.jsx lines 307-317, as the entry it hands
to `onSave` for persistence: `none` when a field is empty (the early
`return`) or when the computed duration is not positive (the
"End time must be after start time" alert path). -/
def handleTimeSubmit (task s e : String) : Option TimeEntryRec :=
  if task.data.isEmpty || s.data.isEmpty || e.data.isEmpty then none
  else
    let d := calculateDuration s e
    if d ≤ 0 then none else some ⟨task, s, e, d⟩

/-! ## Aggregation engine (src/components/SummaryView.jsx lines 28-44)

Calendar days are natural-number day indices; `dayKey` is the injective
stand-in for `format(day, 'yyyy-MM-dd')`.  The entries state is the
assoc-list projection of the `{ "yyyy-MM-dd": { time: [], expense: [] } }`
object built by `fetchEntries`. -/

structure DayData where
  time : List TimeEntryRec := []
  expense : List ExpenseRec := []
deriving DecidableEq, Repr

abbrev Entries := List (String × DayData)

def dayKey (d : Nat) : String := toString d

/-- Modelled from the spec: the repository pins its `date-fns` version
outside `src/` (no package.json is provided), so the behavior of
`eachDayOfInterval` on a reversed interval is taken from the spec's
failure semantics — "a DateRange with start after end signals
`InvalidRange` and produces no result (the engine never silently swaps or
clamps it)"; date-fns raises `RangeError` there, modelled as `none`.  For
`start ≤ end` the enumeration is the inclusive day range. -/
def eachDayOfInterval (s e : Nat) : Option (List Nat) :=
  if s ≤ e then some (List.range' s (e - s + 1)) else none

/-- JS object accumulator step `obj[k] = (obj[k] || 0) + v` on the
insertion-ordered entry list of the object: add into the first (unique)
occurrence of the key, or append a new key at the end. -/
def jsRecordAdd : List (String × ℚ) → String → ℚ → List (String × ℚ)
  | [], k, v => [(k, v)]
  | (k', v') :: rest, k, v =>
    if k' = k then (k', v' + v) :: rest else (k', v') :: jsRecordAdd rest k v

structure SummaryAcc where
  totalTime : ℚ := 0
  totalMoney : ℚ := 0
  taskSummary : List (String × ℚ) := []
  expenseSummary : List (String × ℚ) := []
deriving DecidableEq, Repr

/-- One time entry of a day: `totalTime += (t.duration || 0);
taskSummary[t.task] = (taskSummary[t.task] || 0) + t.duration`.  With
numeric durations `(t.duration || 0)` and `t.duration` coincide. -/
def stepTime (acc : SummaryAcc) (t : TimeEntryRec) : SummaryAcc :=
  { acc with
    totalTime := acc.totalTime + t.duration
    taskSummary := jsRecordAdd acc.taskSummary t.task t.duration }

/-- One expense entry of a day: `totalMoney += (e.amount || 0);
expenseSummary[e.description] = (expenseSummary[e.description] || 0) +
e.amount`. -/
def stepExpense (acc : SummaryAcc) (e : ExpenseRec) : SummaryAcc :=
  { acc with
    totalMoney := acc.totalMoney + e.amount
    expenseSummary := jsRecordAdd acc.expenseSummary e.description e.amount }

/-- The body of `days.forEach(...)`: a missing bucket contributes
nothing; otherwise the time entries then the expense entries are
folded in. -/
def stepDay (entries : Entries) (acc : SummaryAcc) (d : Nat) : SummaryAcc :=
  match entries.lookup (dayKey d) with
  | none => acc
  | some dd => dd.expense.foldl stepExpense (dd.time.foldl stepTime acc)

/-- The aggregation of `SummaryView` over an already-resolved inclusive
day range: fold every day of the range over the initial all-zero state. -/
def summarize (entries : Entries) (s e : Nat) : Option SummaryAcc :=
  (eachDayOfInterval s e).map (fun days => days.foldl (stepDay entries) {})

/-! ## Ranked breakdown views (src/components/SummaryView.jsx lines 75-99)

`Object.entries(summary).sort(([, a], [, b]) => b - a)`.  `Object.entries`
enumerates integer-like keys (canonical decimal strings of array indices,
values below 2^32 - 1) first in ascending numeric order, then the other
keys in insertion order; the ES2019+ `sort` is stable and the comparator
orders by value descending. -/

def decimalVal (l : List Char) : Nat := l.foldl (fun a c => a * 10 + digitVal c) 0

/-- Whether a JS object key is an array index: the canonical decimal form
of an integer below 2^32 - 1 (no leading zero except `"0"` itself). -/
def isArrayIndexKey (s : String) : Bool :=
  match s.data with
  | [] => false
  | c :: cs =>
    (c :: cs).all Char.isDigit &&
    (decide (c = '0') → cs.isEmpty) &&
    decimalVal (c :: cs) < 4294967295

def keyNum (s : String) : Nat := decimalVal s.data

/-- Stable ascending insertion by array-index value (the array-index keys
of one object are distinct, so this is the unique ascending order). -/
def insertIdx (x : String × ℚ) : List (String × ℚ) → List (String × ℚ)
  | [] => [x]
  | y :: ys => if keyNum y.1 ≤ keyNum x.1 then y :: insertIdx x ys else x :: y :: ys

def idxSort (l : List (String × ℚ)) : List (String × ℚ) :=
  l.foldl (fun acc x => insertIdx x acc) []

/-- The `Object.entries` enumeration order of an insertion-ordered record. -/
def objectEntriesOrder (m : List (String × ℚ)) : List (String × ℚ) :=
  idxSort (m.filter (fun p => isArrayIndexKey p.1)) ++
    m.filter (fun p => !isArrayIndexKey p.1)

/-- Stable descending insertion by accumulated value: a later element is
placed after every earlier element of greater or equal value, exactly as
the stable `sort(([, a], [, b]) => b - a)` orders it. -/
def insertRanked (x : String × ℚ) : List (String × ℚ) → List (String × ℚ)
  | [] => [x]
  | y :: ys => if x.2 ≤ y.2 then y :: insertRanked x ys else x :: y :: ys

def rankedSort (l : List (String × ℚ)) : List (String × ℚ) :=
  l.foldl (fun acc x => insertRanked x acc) []

/-- The rendered ranked breakdown:
`Object.entries(summary).sort(([, a], [, b]) => b - a)`. -/
def rankedView (m : List (String × ℚ)) : List (String × ℚ) :=
  rankedSort (objectEntriesOrder m)

/-! ## CSV export (src/components/SummaryView.jsx lines 404-473)

`generateCSV` with an already-resolved `[start, end]` range.  A row is a
list of cells; a cell is a text or a numeric value, as in the source's
mixed string/number row arrays.  The export aborts (an alert, no file)
when only the header row was produced. -/

inductive Cell where
  | str : String → Cell
  | num : ℚ → Cell
deriving DecidableEq, Repr

/-- The `t.task.replace(/"/g, '""')` escaping. -/
def dupQuotes : List Char → List Char
  | [] => []
  | c :: cs => if c == '"' then '"' :: '"' :: dupQuotes cs else c :: dupQuotes cs

/-- A quoted, quote-doubled text field: `` `"${x.replace(/"/g, '""')}"` ``. -/
def csvEscape (s : String) : String := ⟨'"' :: (dupQuotes s.data ++ ['"'])⟩

def csvHeader : List Cell :=
  [.str "Date", .str "Type", .str "Category/Task",
   .str "Value (Amount/Hours)", .str "Start Time", .str "End Time"]

def csvTimeRow (d : Nat) (t : TimeEntryRec) : List Cell :=
  [.str (dayKey d), .str "Time", .str (csvEscape t.task), .num t.duration,
   .str t.startTime, .str t.endTime]

def csvExpenseRow (d : Nat) (e : ExpenseRec) : List Cell :=
  [.str (dayKey d), .str "Expense", .str (csvEscape e.description),
   .num e.amount, .str "", .str ""]

/-- The rows one day pushes: nothing for a missing bucket, otherwise its
time rows then its expense rows. -/
def csvDayRows (entries : Entries) (d : Nat) : List (List Cell) :=
  match entries.lookup (dayKey d) with
  | none => []
  | some dd => dd.time.map (csvTimeRow d) ++ dd.expense.map (csvExpenseRow d)

/-- `generateCSV` for a resolved range: `none` both on a reversed interval
(`eachDayOfInterval` raises) and when no entry is in range (the
"No data found for this period." alert); otherwise the downloaded
filename and the full row list. -/
def generateCSV (entries : Entries) (s e : Nat) : Option (String × List (List Cell)) :=
  match eachDayOfInterval s e with
  | none => none
  | some days =>
    let rows := days.foldl (fun acc d => acc ++ csvDayRows entries d) [csvHeader]
    if rows.length = 1 then none
    else some ("tracker_export_" ++ dayKey s ++ "-" ++ dayKey e ++ ".csv", rows)

/-! ## The legacy `SummaryView` variant (src/unnamed/part_000)

That variant declares `totalTime`, `totalMoney` and `expenseSummary` but
never declares `taskSummary`, yet assigns
`taskSummary[t.task] = (taskSummary[t.task] || 0) + t.duration` for every
time entry and renders `Object.entries(taskSummary)` unconditionally:
reading the undeclared identifier raises `ReferenceError`. -/

inductive JsError where
  | referenceError : String → JsError
  | rangeError : JsError
deriving DecidableEq, Repr

structure LegacyAcc where
  totalTime : ℚ := 0
  totalMoney : ℚ := 0
  expenseSummary : List (String × ℚ) := []
deriving DecidableEq, Repr

/-- The time-entry statement of the legacy loop: evaluating
`taskSummary[t.task]` reads the undeclared `taskSummary`. -/
def legacyStepTime (_ : LegacyAcc) (_ : TimeEntryRec) : Except JsError LegacyAcc :=
  .error (.referenceError "taskSummary")

def legacyStepExpense (acc : LegacyAcc) (e : ExpenseRec) : LegacyAcc :=
  { acc with
    totalMoney := acc.totalMoney + e.amount
    expenseSummary := jsRecordAdd acc.expenseSummary e.description e.amount }

def legacyFoldTime : LegacyAcc → List TimeEntryRec → Except JsError LegacyAcc
  | acc, [] => .ok acc
  | acc, t :: ts =>
    match legacyStepTime acc t with
    | .error err => .error err
    | .ok acc2 => legacyFoldTime acc2 ts

def legacyStepDay (entries : Entries) (acc : LegacyAcc) (d : Nat) : Except JsError LegacyAcc :=
  match entries.lookup (dayKey d) with
  | none => .ok acc
  | some dd =>
    match legacyFoldTime acc dd.time with
    | .error err => .error err
    | .ok acc2 => .ok (dd.expense.foldl legacyStepExpense acc2)

def legacyFoldDays : LegacyAcc → List Nat → Entries → Except JsError LegacyAcc
  | acc, [], _ => .ok acc
  | acc, d :: ds, entries =>
    match legacyStepDay entries acc d with
    | .error err => .error err
    | .ok acc2 => legacyFoldDays acc2 ds entries

/-- The legacy `SummaryView` render: the aggregation loop over the days of
the (valid, week/month) range, then the unconditional
`Object.entries(taskSummary)` read in the returned markup. -/
def summaryViewLegacy (entries : Entries) (s e : Nat) :
    Except JsError (LegacyAcc × List (String × ℚ)) :=
  match eachDayOfInterval s e with
  | none => .error .rangeError
  | some days =>
    match legacyFoldDays {} days entries with
    | .error err => .error err
    | .ok _ => .error (.referenceError "taskSummary")

/-! ## Reference summations used to state the aggregation claims -/

def sumValues (m : List (String × ℚ)) : ℚ := (m.map Prod.snd).sum

/-- The reference per-day time total: sum of the durations of the day's
bucket, zero for a missing bucket. -/
def dayTimeTotal (entries : Entries) (d : Nat) : ℚ :=
  match entries.lookup (dayKey d) with
  | none => 0
  | some dd => (dd.time.map TimeEntryRec.duration).sum

/-- The reference per-day money total. -/
def dayMoneyTotal (entries : Entries) (d : Nat) : ℚ :=
  match entries.lookup (dayKey d) with
  | none => 0
  | some dd => (dd.expense.map ExpenseRec.amount).sum

/-- The reference count of entries of a day, as exported rows. -/
def dayEntryCount (entries : Entries) (d : Nat) : Nat :=
  match entries.lookup (dayKey d) with
  | none => 0
  | some dd => dd.time.length + dd.expense.length

/-- The reference count of entries in an inclusive resolved range. -/
def entriesInRangeCount (entries : Entries) (s e : Nat) : Nat :=
  ((List.range' s (e - s + 1)).map (dayEntryCount entries)).sum

/-! ## Concrete inputs used by the claims -/

/-- The spec's aggregation example: day D1 (index 0) with
`TimeEntry{task:"Write", duration:2.0}` and
`ExpenseEntry{desc:"Coffee", amount:4.5}`; day D2 (index 1) with
`TimeEntry{task:"Write", duration:1.5}`. -/
def aggExampleEntries : Entries :=
  [(dayKey 0, { time := [⟨"Write", "09:00", "11:00", 2⟩],
                expense := [⟨"Coffee", 9/2⟩] }),
   (dayKey 1, { time := [⟨"Write", "09:00", "10:30", 3/2⟩] })]

/-- Two equal-valued tasks whose labels are array-index strings,
encountered as `"2"` then `"1"`. -/
def tieIdxEntries : Entries :=
  [(dayKey 0, { time := [⟨"2", "09:00", "10:00", 1⟩, ⟨"1", "10:00", "11:00", 1⟩] })]

/-- Two equal-valued tasks with ordinary (non-array-index) labels,
encountered as `"Write"` then `"Read"`. -/
def tiePlainEntries : Entries :=
  [(dayKey 0, { time := [⟨"Write", "09:00", "10:00", 1⟩, ⟨"Read", "10:00", "11:00", 1⟩] })]

/-- A day with one time entry whose task contains double quotes and one
expense entry, for the CSV export. -/
def csvExampleEntries : Entries :=
  [(dayKey 0, { time := [⟨"say \"hi\"", "09:00", "10:00", 1⟩],
                expense := [⟨"Coffee", 3⟩] })]

/-! ## Helper lemmas -/

theorem digitChar_class : ∀ d, d < 10 →
    (Nat.digitChar d).isDigit = true ∧
    isWSChar (Nat.digitChar d) = false ∧
    jsToLowerChar (Nat.digitChar d) = Nat.digitChar d ∧
    digitVal (Nat.digitChar d) = d := by
  decide

/-- The 24-hour format accepts the canonical rendering of any wall-clock
time and recovers its components. -/
theorem tryHHmm_toHHMM (h m : Nat) (hh : h < 24) (hm : m < 60) :
    tryHHmm (toHHMMList h m) = some (h, m) := by
  obtain ⟨i1, -, -, v1⟩ := digitChar_class (h / 10) (by omega)
  obtain ⟨i2, -, -, v2⟩ := digitChar_class (h % 10) (by omega)
  obtain ⟨i3, -, -, v3⟩ := digitChar_class (m / 10) (by omega)
  obtain ⟨i4, -, -, v4⟩ := digitChar_class (m % 10) (by omega)
  have hv : digitVal (Nat.digitChar (h / 10)) * 10 + digitVal (Nat.digitChar (h % 10)) = h := by
    rw [v1, v2]; omega
  have mv : digitVal (Nat.digitChar (m / 10)) * 10 + digitVal (Nat.digitChar (m % 10)) = m := by
    rw [v3, v4]; omega
  simp [toHHMMList, tryHHmm, parseDigits2, i1, i2, i3, i4, hv, mv]
  omega

/-! ## Claim C1 (corrected) -/

/-- C1 counterexample: the claim states that `"9:30-17:45"` parses to
`("09:30","17:45")`, but the split regex `/\s+(?:to|-|until)\s+/`
requires whitespace on both sides of the dash, so the parser returns no
match on this input. -/
theorem c1_counterexample : parseSmartTime "9:30-17:45" = none := by decide

/-- C1 amended: the parser maps `"9am to 5pm"` to `("09:00","17:00")` and
`"noon to 1pm"` to no match; the dash-separated examples are recognized
only with whitespace around the dash, so `"9:30-17:45"`, `"9:00-17:00"`
and `"9:00am-5:00pm"` all yield no match, while `"9:30 - 17:45"` parses
to `("09:30","17:45")` and `"9:00 - 17:00"` (via the 24-hour format) and
`"9:00am - 5:00pm"` (via the 12-hour format) both parse to
`("09:00","17:00")`. -/
theorem c1_amended :
    parseSmartTime "9am to 5pm" = some ("09:00", "17:00") ∧
    parseSmartTime "noon to 1pm" = none ∧
    parseSmartTime "9:30-17:45" = none ∧
    parseSmartTime "9:00-17:00" = none ∧
    parseSmartTime "9:00am-5:00pm" = none ∧
    parseSmartTime "9:30 - 17:45" = some ("09:30", "17:45") ∧
    parseSmartTime "9:00 - 17:00" = some ("09:00", "17:00") ∧
    parseSmartTime "9:00am - 5:00pm" = some ("09:00", "17:00") := by
  refine ⟨by decide, by decide, by decide, by decide, by decide, by decide, by decide, by decide⟩

/-! ## Claim C5 (confirmed) -/

/-- The empty-input early return of `parseSmartTime` coincides with the
generic path (an empty input yields the single empty segment), so the
parser is the match on segments and their parses. -/
theorem parseSmartTime_eq (s : String) :
    parseSmartTime s =
      (match segmentsOf s.data with
      | [p1, p2] =>
        (match parsePart p1, parsePart p2 with
        | some a, some b => some (a, b)
        | _, _ => none)
      | _ => none) := by
  unfold parseSmartTime
  split
  · next hemp =>
    have hnil : s.data = [] := by
      cases hd : s.data with
      | nil => rfl
      | cons c t => rw [hd] at hemp; simp [List.isEmpty] at hemp
    rw [hnil]
    rfl
  · rfl

/-- C5: the parser fails whenever the cleaned text does not split into
exactly two segments on a recognized separator, and whenever either
segment matches no accepted time format; any successful result comes from
exactly two segments that both parsed, so one normalized endpoint is
never returned without the other; in particular `"9am 5pm"` (no
connecting word) fails. -/
theorem c5_parse_failure_totality :
    (∀ s : String, (segmentsOf s.data).length ≠ 2 → parseSmartTime s = none) ∧
    (∀ (s : String) (p1 p2 : List Char), segmentsOf s.data = [p1, p2] →
      parsePart p1 = none ∨ parsePart p2 = none → parseSmartTime s = none) ∧
    (∀ (s a b : String), parseSmartTime s = some (a, b) →
      ∃ p1 p2, segmentsOf s.data = [p1, p2] ∧ parsePart p1 = some a ∧ parsePart p2 = some b) ∧
    parseSmartTime "9am 5pm" = none := by
  refine ⟨?_, ?_, ?_, by decide⟩
  · intro s hlen
    rw [parseSmartTime_eq]
    rcases hseg : segmentsOf s.data with _ | ⟨p1, _ | ⟨p2, rest⟩⟩
    · rfl
    · rfl
    · cases rest with
      | nil => exact absurd (by rw [hseg]; rfl) hlen
      | cons r rs => rfl
  · intro s p1 p2 hseg hnone
    rw [parseSmartTime_eq, hseg]
    show (match parsePart p1, parsePart p2 with
      | some a, some b => some (a, b)
      | _, _ => none) = none
    rcases hnone with h | h
    · rw [h]
    · rw [h]
      all_goals cases parsePart p1 <;> rfl
  · intro s a b h
    rw [parseSmartTime_eq] at h
    rcases hseg : segmentsOf s.data with _ | ⟨p1, _ | ⟨p2, rest⟩⟩ <;> rw [hseg] at h
    · exact absurd h (by simp)
    · exact absurd h (by simp)
    · cases rest with
      | nil =>
        have h2 : (match parsePart p1, parsePart p2 with
            | some a, some b => some (a, b)
            | _, _ => none) = some (a, b) := h
        rcases hp1 : parsePart p1 with _ | x <;> rw [hp1] at h2
        · exact absurd h2 (by cases parsePart p2 <;> simp)
        · rcases hp2 : parsePart p2 with _ | y <;> rw [hp2] at h2
          · exact absurd h2 (by simp)
          · obtain ⟨hx, hy⟩ : x = a ∧ y = b := by
              simp only [Option.some.injEq, Prod.mk.injEq] at h2
              exact h2
            exact ⟨p1, p2, rfl, hx ▸ hp1, hy ▸ hp2⟩
      | cons r rs => exact absurd h (by simp)

/-- C5 witness: the three universally quantified parts applied at
concrete inputs. -/
theorem c5_witness :
    parseSmartTime "9am" = none ∧
    parseSmartTime "x to y" = none ∧
    (∃ p1 p2, segmentsOf ("9am to 5pm".data) = [p1, p2] ∧
      parsePart p1 = some "09:00" ∧ parsePart p2 = some "17:00") :=
  ⟨c5_parse_failure_totality.1 "9am" (by decide),
   c5_parse_failure_totality.2.1 "x to y" ['x'] ['y'] (by decide) (Or.inl (by decide)),
   c5_parse_failure_totality.2.2.1 "9am to 5pm" "09:00" "17:00" (by decide)⟩

/-! ## Pipeline lemmas for the parser round-trip -/

theorem map_jsToLower_self (l : List Char) (h : ∀ c ∈ l, jsToLowerChar c = c) :
    l.map jsToLowerChar = l := by
  induction l with
  | nil => rfl
  | cons c t ih =>
    rw [List.map_cons, h c (List.mem_cons_self c t),
      ih (fun x hx => h x (List.mem_cons_of_mem c hx))]

theorem collapseAux_append_nonWS (a : List Char) (h : ∀ c ∈ a, isWSChar c = false) :
    ∀ (rest : List Char) (prev : Bool),
      collapseAux prev (a ++ rest) = a ++ collapseAux (if a.isEmpty then prev else false) rest := by
  induction a with
  | nil => intro rest prev; rfl
  | cons c t ih =>
    intro rest prev
    have hc : isWSChar c = false := h c (List.mem_cons_self c t)
    simp only [List.cons_append, List.append_eq, collapseAux, hc, Bool.false_eq_true, if_false]
    rw [ih (fun x hx => h x (List.mem_cons_of_mem c hx))]
    cases t <;> simp

theorem beq_space_false {c : Char} (h : isWSChar c = false) : (c == ' ') = false := by
  cases hb : c == ' '
  · rfl
  · have hcc : c = ' ' := eq_of_beq hb
    rw [hcc] at h
    exact absurd h (by decide)

theorem trimWS_eq_self (l : List Char)
    (h1 : ∀ c, l.head? = some c → isWSChar c = false)
    (h2 : ∀ c, l.getLast? = some c → isWSChar c = false) :
    trimWS l = l := by
  unfold trimWS
  have hd : l.dropWhile isWSChar = l := by
    cases l with
    | nil => rfl
    | cons c t => simp [List.dropWhile, h1 c rfl]
  rw [hd]
  have hrev : l.reverse.dropWhile isWSChar = l.reverse := by
    cases hr : l.reverse with
    | nil => rfl
    | cons c t =>
      have hlast : l.getLast? = some c := by
        rw [← List.head?_reverse, hr]; rfl
      simp [List.dropWhile, h2 c hlast]
  rw [hrev, List.reverse_reverse]

theorem splitSpaceAux_append_nonsp (a : List Char) (h : ∀ c ∈ a, isWSChar c = false) :
    ∀ (rest cur : List Char),
      splitSpaceAux cur (a ++ rest) = splitSpaceAux (a.reverse ++ cur) rest := by
  induction a with
  | nil => intro rest cur; rfl
  | cons c t ih =>
    intro rest cur
    have hc : (c == ' ') = false := beq_space_false (h c (List.mem_cons_self c t))
    simp only [List.cons_append, List.append_eq, splitSpaceAux, hc, Bool.false_eq_true, if_false]
    rw [ih (fun x hx => h x (List.mem_cons_of_mem c hx))]
    simp

/-- The split of the cleaned text `<wordA> to <wordB>` for plain one-word
segments: exactly the two segments, as JS `split(/\s+(?:to|-|until)\s+/)`
produces. -/
theorem segmentsOf_two_words (a b : List Char) (ha : a ≠ []) (hb : b ≠ [])
    (hla : ∀ c ∈ a, jsToLowerChar c = c) (hlb : ∀ c ∈ b, jsToLowerChar c = c)
    (hwa : ∀ c ∈ a, isWSChar c = false) (hwb : ∀ c ∈ b, isWSChar c = false) :
    segmentsOf (a ++ (' ' :: 't' :: 'o' :: ' ' :: b)) = [a, b] := by
  unfold segmentsOf cleanChars
  have hmap : (a ++ (' ' :: 't' :: 'o' :: ' ' :: b)).map jsToLowerChar
      = a ++ (' ' :: 't' :: 'o' :: ' ' :: b) := by
    rw [List.map_append, map_jsToLower_self a hla]
    have l1 : jsToLowerChar ' ' = ' ' := by decide
    have l2 : jsToLowerChar 't' = 't' := by decide
    have l3 : jsToLowerChar 'o' = 'o' := by decide
    simp [l1, l2, l3, map_jsToLower_self b hlb]
  rw [hmap]
  have haE : a.isEmpty = false := by
    cases a with
    | nil => exact absurd rfl ha
    | cons x t => rfl
  have hbE : b.isEmpty = false := by
    cases b with
    | nil => exact absurd rfl hb
    | cons x t => rfl
  have w1 : isWSChar ' ' = true := by decide
  have w2 : isWSChar 't' = false := by decide
  have w3 : isWSChar 'o' = false := by decide
  have hcol : collapseAux false (a ++ (' ' :: 't' :: 'o' :: ' ' :: b))
      = a ++ (' ' :: 't' :: 'o' :: ' ' :: b) := by
    rw [collapseAux_append_nonWS a hwa, haE]
    have hcb : collapseAux true b = b := by
      have hx := collapseAux_append_nonWS b hwb [] true
      rw [List.append_nil, hbE] at hx
      simpa [collapseAux] using hx
    have hstep : collapseAux false (' ' :: 't' :: 'o' :: ' ' :: b)
        = ' ' :: 't' :: 'o' :: ' ' :: b := by
      simp [collapseAux, w1, w2, w3, hcb]
    rw [if_neg (by simp), hstep]
  rw [hcol]
  have htrim : trimWS (a ++ (' ' :: 't' :: 'o' :: ' ' :: b))
      = a ++ (' ' :: 't' :: 'o' :: ' ' :: b) := by
    apply trimWS_eq_self
    · intro c hc
      cases a with
      | nil => exact absurd rfl ha
      | cons a0 t =>
        simp only [List.cons_append, List.head?_cons, Option.some.injEq] at hc
        exact hc ▸ hwa a0 (List.mem_cons_self a0 t)
    · intro c hc
      have hne : (' ' :: 't' :: 'o' :: ' ' :: b) ≠ [] := by simp
      rw [List.getLast?_append_of_ne_nil a hne] at hc
      have hb2 : (' ' :: 't' :: 'o' :: ' ' :: b) = [' ', 't', 'o', ' '] ++ b := rfl
      rw [hb2, List.getLast?_append_of_ne_nil [' ', 't', 'o', ' '] hb] at hc
      have hmem : c ∈ b := by
        obtain ⟨hne2, heq⟩ := List.mem_getLast?_eq_getLast (l := b) (x := c) hc
        exact heq ▸ List.getLast_mem hne2
      exact hwb c hmem
  rw [htrim]
  have hspl : splitSpace (a ++ (' ' :: 't' :: 'o' :: ' ' :: b)) = [a, ['t', 'o'], b] := by
    unfold splitSpace
    rw [splitSpaceAux_append_nonsp a hwa]
    have s1 : splitSpaceAux (a.reverse ++ []) (' ' :: 't' :: 'o' :: ' ' :: b)
        = a :: splitSpaceAux [] ('t' :: 'o' :: ' ' :: b) := by
      simp [splitSpaceAux]
    rw [s1]
    have s2 : splitSpaceAux [] ('t' :: 'o' :: ' ' :: b)
        = ['t', 'o'] :: splitSpaceAux [] b := by
      simp [splitSpaceAux]
    rw [s2]
    have s3 : splitSpaceAux [] b = [b] := by
      have := splitSpaceAux_append_nonsp b hwb [] []
      rw [List.append_nil] at this
      rw [this]
      simp [splitSpaceAux]
    rw [s3]
  rw [hspl]
  have hsep_to : isSepWord ['t', 'o'] = true := by decide
  simp [splitSepAux, hsep_to, haE, List.intercalate]

theorem toHHMMList_chars {h m : Nat} (hh : h < 24) (hm : m < 60) :
    ∀ c ∈ toHHMMList h m, jsToLowerChar c = c ∧ isWSChar c = false := by
  intro c hc
  obtain ⟨-, ww1, ll1, -⟩ := digitChar_class (h / 10) (by omega)
  obtain ⟨-, ww2, ll2, -⟩ := digitChar_class (h % 10) (by omega)
  obtain ⟨-, ww3, ll3, -⟩ := digitChar_class (m / 10) (by omega)
  obtain ⟨-, ww4, ll4, -⟩ := digitChar_class (m % 10) (by omega)
  simp only [toHHMMList, List.mem_cons, List.not_mem_nil, or_false] at hc
  rcases hc with rfl | rfl | rfl | rfl | rfl
  · exact ⟨ll1, ww1⟩
  · exact ⟨ll2, ww2⟩
  · exact ⟨by decide, by decide⟩
  · exact ⟨ll3, ww3⟩
  · exact ⟨ll4, ww4⟩

/-- The first (24-hour) format accepts a canonical rendering, so the
segment parses to itself under the format priority. -/
theorem parsePart_toHHMM (h m : Nat) (hh : h < 24) (hm : m < 60) :
    parsePart (toHHMMList h m) = some (toHHMM h m) := by
  unfold parsePart parsePartHM
  rw [tryHHmm_toHHMM h m hh hm]
  rfl

/-! ## Claim C8 (confirmed) -/

/-- C8: for canonical `HH:MM` wall-clock strings (start lexically below
end), formatting them as `"{start} to {end}"` and parsing returns exactly
the same pair. -/
theorem c8_roundtrip (h1 m1 h2 m2 : Nat) (hh1 : h1 < 24) (hm1 : m1 < 60)
    (hh2 : h2 < 24) (hm2 : m2 < 60) (hlex : toHHMM h1 m1 < toHHMM h2 m2) :
    parseSmartTime (toHHMM h1 m1 ++ " to " ++ toHHMM h2 m2)
      = some (toHHMM h1 m1, toHHMM h2 m2) := by
  have hdata : (toHHMM h1 m1 ++ " to " ++ toHHMM h2 m2).data
      = toHHMMList h1 m1 ++ (' ' :: 't' :: 'o' :: ' ' :: toHHMMList h2 m2) := by
    rw [String.data_append, String.data_append]
    rfl
  have hc1 := toHHMMList_chars hh1 hm1
  have hc2 := toHHMMList_chars hh2 hm2
  rw [parseSmartTime_eq, hdata,
    segmentsOf_two_words _ _ (by simp [toHHMMList]) (by simp [toHHMMList])
      (fun c hc => (hc1 c hc).1) (fun c hc => (hc2 c hc).1)
      (fun c hc => (hc1 c hc).2) (fun c hc => (hc2 c hc).2)]
  show (match parsePart (toHHMMList h1 m1), parsePart (toHHMMList h2 m2) with
    | some a, some b => some (a, b)
    | _, _ => none) = some (toHHMM h1 m1, toHHMM h2 m2)
  rw [parsePart_toHHMM h1 m1 hh1 hm1, parsePart_toHHMM h2 m2 hh2 hm2]

/-- C8 witness: the round trip at `09:00` and `17:00`. -/
theorem c8_roundtrip_witness :
    parseSmartTime (toHHMM 9 0 ++ " to " ++ toHHMM 17 0) = some (toHHMM 9 0, toHHMM 17 0) :=
  c8_roundtrip 9 0 17 0 (by omega) (by omega) (by omega) (by omega)
    (String.lt_iff_toList_lt.mpr (by decide))

/-! ## Claim C2 (confirmed) -/

/-- Evaluation of the duration calculator on canonical endpoint strings:
the positive minute difference in hours put through `toFixed(2)`, and `0`
otherwise. -/
theorem calculateDuration_eval (h1 m1 h2 m2 : ℕ) (hh1 : h1 < 24) (hm1 : m1 < 60)
    (hh2 : h2 < 24) (hm2 : m2 < 60) :
    calculateDuration (toHHMM h1 m1) (toHHMM h2 m2)
      = (if 0 < ((h2 * 60 + m2 : ℕ) : ℤ) - ((h1 * 60 + m1 : ℕ) : ℤ)
         then jsToFixed2 ((((((h2 * 60 + m2 : ℕ) : ℤ) - ((h1 * 60 + m1 : ℕ) : ℤ)) : ℤ) : ℚ) / 60)
         else 0) := by
  unfold calculateDuration
  rw [show (toHHMM h1 m1).data = toHHMMList h1 m1 from rfl,
    show (toHHMM h2 m2).data = toHHMMList h2 m2 from rfl,
    tryHHmm_toHHMM h1 m1 hh1 hm1, tryHHmm_toHHMM h2 m2 hh2 hm2]
  rfl

/-- `toFixed(2)` of a minute-count in hours is an integer number of
hundredths within `1/200` of the exact value (the scaled value is never
at a rounding tie: thrice it is an integer). -/
theorem jsToFixed2_near (Δ : ℤ) :
    ∃ n : ℤ, jsToFixed2 ((Δ : ℚ) / 60) = (n : ℚ) / 100 ∧
      |(n : ℚ) / 100 - (Δ : ℚ) / 60| < 1 / 200 := by
  refine ⟨round ((Δ : ℚ) / 60 * 100), rfl, ?_⟩
  set x : ℚ := (Δ : ℚ) / 60 * 100 with hxdef
  obtain ⟨k, hk⟩ : ∃ k : ℤ, (x - round x) * 3 = (k : ℚ) := by
    refine ⟨5 * Δ - 3 * round x, ?_⟩
    have h3x : x * 3 = 5 * (Δ : ℚ) := by rw [hxdef]; ring
    push_cast
    linarith
  have habs : |x - round x| ≤ 1 / 2 := abs_sub_round x
  have habs3 : |x - round x| * 3 = |(k : ℚ)| := by
    rw [← hk, abs_mul]
    norm_num
  have hk2 : |k| ≤ 1 := by
    have hq : ((|k| : ℤ) : ℚ) < 2 := by
      rw [Int.cast_abs]
      linarith
    have hq2 : |k| < 2 := by exact_mod_cast hq
    omega
  have hk1q : |(k : ℚ)| ≤ 1 := by
    rw [← Int.cast_abs]
    exact_mod_cast hk2
  have hxr : |x - round x| ≤ 1 / 3 := by linarith
  have hxeq : x / 100 = (Δ : ℚ) / 60 := by rw [hxdef]; ring
  have hdiff : (↑(round x) : ℚ) / 100 - (Δ : ℚ) / 60 = -(x - ↑(round x)) / 100 := by
    rw [← hxeq]; ring
  rw [hdiff, abs_div, abs_neg, abs_of_nonneg (by norm_num : (0 : ℚ) ≤ 100)]
  linarith

/-- C2: for canonical wall-clock `HH:MM` endpoints, a positive
end-minus-start yields the elapsed hours rounded (to the nearest, within
half a hundredth) to two decimal places, and a zero or negative one is
invalid — the duration is `0` and `handleTimeSubmit` persists nothing;
concretely `09:00`-`17:30` gives `8.5`, `17:00`-`09:00` is rejected, and
`09:00`-`09:01` gives `0.02` (nearest rounding, not truncation). -/
theorem c2_duration_spec :
    (∀ h1 m1 h2 m2 : ℕ, h1 < 24 → m1 < 60 → h2 < 24 → m2 < 60 →
      ((((h1 * 60 + m1 : ℕ) : ℤ) < ((h2 * 60 + m2 : ℕ) : ℤ) →
        ∃ n : ℤ, calculateDuration (toHHMM h1 m1) (toHHMM h2 m2) = (n : ℚ) / 100 ∧
          |(n : ℚ) / 100 - ((((h2 * 60 + m2 : ℕ) : ℤ) - ((h1 * 60 + m1 : ℕ) : ℤ) : ℚ)) / 60|
            < 1 / 200) ∧
      (((h2 * 60 + m2 : ℕ) : ℤ) ≤ ((h1 * 60 + m1 : ℕ) : ℤ) →
        calculateDuration (toHHMM h1 m1) (toHHMM h2 m2) = 0 ∧
        ∀ task : String, handleTimeSubmit task (toHHMM h1 m1) (toHHMM h2 m2) = none))) ∧
    calculateDuration "09:00" "17:30" = 17 / 2 ∧
    (handleTimeSubmit "Write" "09:00" "17:30").map TimeEntryRec.duration = some (17 / 2) ∧
    calculateDuration "17:00" "09:00" = 0 ∧
    handleTimeSubmit "Write" "17:00" "09:00" = none ∧
    calculateDuration "09:00" "09:01" = 1 / 50 := by
  constructor
  · intro h1 m1 h2 m2 hh1 hm1 hh2 hm2
    have hcd := calculateDuration_eval h1 m1 h2 m2 hh1 hm1 hh2 hm2
    constructor
    · intro hlt
      rw [hcd, if_pos (by omega)]
      have hnear := jsToFixed2_near (((h2 * 60 + m2 : ℕ) : ℤ) - ((h1 * 60 + m1 : ℕ) : ℤ))
      obtain ⟨n, hn1, hn2⟩ := hnear
      exact ⟨n, hn1, by push_cast at hn2 ⊢; convert hn2 using 3⟩
    · intro hle
      have hz : calculateDuration (toHHMM h1 m1) (toHHMM h2 m2) = 0 := by
        rw [hcd]
        exact if_neg (by omega)
      refine ⟨hz, fun task => ?_⟩
      unfold handleTimeSubmit
      cases ht : task.data.isEmpty with
      | true => rfl
      | false =>
        have hcond : (false || (toHHMM h1 m1).data.isEmpty || (toHHMM h2 m2).data.isEmpty)
            = false := rfl
        rw [hcond]
        simp only [Bool.false_eq_true, if_false, hz]
        norm_num
  · have e1 : tryHHmm "09:00".data = some (9, 0) := by decide
    have e2 : tryHHmm "17:30".data = some (17, 30) := by decide
    have e3 : tryHHmm "17:00".data = some (17, 0) := by decide
    have e4 : tryHHmm "09:01".data = some (9, 1) := by decide
    have d1 : calculateDuration "09:00" "17:30" = 17 / 2 := by
      simp only [calculateDuration, e1, e2]
      norm_num [jsToFixed2, round_eq]
    have d2 : calculateDuration "17:00" "09:00" = 0 := by
      simp only [calculateDuration, e3, e1]
      norm_num
    have d3 : calculateDuration "09:00" "09:01" = 1 / 50 := by
      simp only [calculateDuration, e1, e4]
      norm_num [jsToFixed2, round_eq]
    refine ⟨d1, ?_, d2, ?_, d3⟩
    · simp only [handleTimeSubmit, d1]
      norm_num
    · simp only [handleTimeSubmit, d2]
      norm_num

/-- C2 witness: the universal part applied at `09:00`/`17:30` and at
`17:00`/`09:00`. -/
theorem c2_duration_spec_witness :
    (∃ n : ℤ, calculateDuration (toHHMM 9 0) (toHHMM 17 30) = (n : ℚ) / 100 ∧
      |(n : ℚ) / 100 - ((((17 * 60 + 30 : ℕ) : ℤ) - ((9 * 60 + 0 : ℕ) : ℤ) : ℚ)) / 60|
        < 1 / 200) ∧
    calculateDuration (toHHMM 17 0) (toHHMM 9 0) = 0 ∧
    handleTimeSubmit "Write" (toHHMM 17 0) (toHHMM 9 0) = none :=
  ⟨(c2_duration_spec.1 9 0 17 30 (by omega) (by omega) (by omega) (by omega)).1 (by norm_num),
   ((c2_duration_spec.1 17 0 9 0 (by omega) (by omega) (by omega) (by omega)).2 (by norm_num)).1,
   ((c2_duration_spec.1 17 0 9 0 (by omega) (by omega) (by omega) (by omega)).2 (by norm_num)).2 "Write"⟩

/-! ## Aggregation fold lemmas -/

theorem jsRecordAdd_sum (m : List (String × ℚ)) (k : String) (v : ℚ) :
    sumValues (jsRecordAdd m k v) = sumValues m + v := by
  induction m with
  | nil => simp [jsRecordAdd, sumValues]
  | cons p rest ih =>
    by_cases hk : p.1 = k
    · simp [jsRecordAdd, hk, sumValues]
      ring
    · simp only [jsRecordAdd]
      rw [if_neg (by exact hk)]
      simp [sumValues] at ih ⊢
      rw [ih]
      ring

theorem foldTime_components (ts : List TimeEntryRec) :
    ∀ acc : SummaryAcc,
      (ts.foldl stepTime acc).totalTime
          = acc.totalTime + (ts.map TimeEntryRec.duration).sum ∧
      (ts.foldl stepTime acc).totalMoney = acc.totalMoney ∧
      sumValues (ts.foldl stepTime acc).taskSummary
          = sumValues acc.taskSummary + (ts.map TimeEntryRec.duration).sum ∧
      (ts.foldl stepTime acc).expenseSummary = acc.expenseSummary := by
  induction ts with
  | nil => intro acc; simp
  | cons t rest ih =>
    intro acc
    obtain ⟨i1, i2, i3, i4⟩ := ih (stepTime acc t)
    refine ⟨?_, ?_, ?_, ?_⟩
    · rw [List.foldl_cons, i1]
      simp [stepTime]
      ring
    · rw [List.foldl_cons, i2]
      rfl
    · rw [List.foldl_cons, i3]
      simp [stepTime, jsRecordAdd_sum]
      ring
    · rw [List.foldl_cons, i4]
      rfl

theorem foldExpense_components (es : List ExpenseRec) :
    ∀ acc : SummaryAcc,
      (es.foldl stepExpense acc).totalMoney
          = acc.totalMoney + (es.map ExpenseRec.amount).sum ∧
      (es.foldl stepExpense acc).totalTime = acc.totalTime ∧
      sumValues (es.foldl stepExpense acc).expenseSummary
          = sumValues acc.expenseSummary + (es.map ExpenseRec.amount).sum ∧
      (es.foldl stepExpense acc).taskSummary = acc.taskSummary := by
  induction es with
  | nil => intro acc; simp
  | cons e rest ih =>
    intro acc
    obtain ⟨i1, i2, i3, i4⟩ := ih (stepExpense acc e)
    refine ⟨?_, ?_, ?_, ?_⟩
    · rw [List.foldl_cons, i1]
      simp [stepExpense]
      ring
    · rw [List.foldl_cons, i2]
      rfl
    · rw [List.foldl_cons, i3]
      simp [stepExpense, jsRecordAdd_sum]
      ring
    · rw [List.foldl_cons, i4]
      rfl

theorem stepDay_components (entries : Entries) (acc : SummaryAcc) (d : Nat) :
    (stepDay entries acc d).totalTime = acc.totalTime + dayTimeTotal entries d ∧
    (stepDay entries acc d).totalMoney = acc.totalMoney + dayMoneyTotal entries d ∧
    sumValues (stepDay entries acc d).taskSummary
        = sumValues acc.taskSummary + dayTimeTotal entries d ∧
    sumValues (stepDay entries acc d).expenseSummary
        = sumValues acc.expenseSummary + dayMoneyTotal entries d := by
  unfold stepDay dayTimeTotal dayMoneyTotal
  cases hl : entries.lookup (dayKey d) with
  | none => simp
  | some dd =>
    obtain ⟨t1, t2, t3, t4⟩ := foldTime_components dd.time acc
    obtain ⟨e1, e2, e3, e4⟩ := foldExpense_components dd.expense (dd.time.foldl stepTime acc)
    exact ⟨by rw [e2, t1], by rw [e1, t2], by rw [e4, t3], by rw [e3, t4]⟩

theorem foldDays_components (entries : Entries) (days : List Nat) :
    ∀ acc : SummaryAcc,
      (days.foldl (stepDay entries) acc).totalTime
          = acc.totalTime + (days.map (dayTimeTotal entries)).sum ∧
      (days.foldl (stepDay entries) acc).totalMoney
          = acc.totalMoney + (days.map (dayMoneyTotal entries)).sum ∧
      sumValues (days.foldl (stepDay entries) acc).taskSummary
          = sumValues acc.taskSummary + (days.map (dayTimeTotal entries)).sum ∧
      sumValues (days.foldl (stepDay entries) acc).expenseSummary
          = sumValues acc.expenseSummary + (days.map (dayMoneyTotal entries)).sum := by
  induction days with
  | nil => intro acc; simp
  | cons d rest ih =>
    intro acc
    obtain ⟨i1, i2, i3, i4⟩ := ih (stepDay entries acc d)
    obtain ⟨s1, s2, s3, s4⟩ := stepDay_components entries acc d
    refine ⟨?_, ?_, ?_, ?_⟩
    · rw [List.foldl_cons, i1, s1]; simp; ring
    · rw [List.foldl_cons, i2, s2]; simp; ring
    · rw [List.foldl_cons, i3, s3]; simp; ring
    · rw [List.foldl_cons, i4, s4]; simp; ring

/-- Concrete evaluation of the aggregation on the spec's example. -/
theorem summarize_aggExample :
    summarize aggExampleEntries 0 1 =
      some { totalTime := 7/2, totalMoney := 9/2,
             taskSummary := [("Write", 7/2)], expenseSummary := [("Coffee", 9/2)] } := by
  have h01 : eachDayOfInterval 0 1 = some [0, 1] := by decide
  have k00 : (dayKey 0 == dayKey 0) = true := by decide
  have k01 : (dayKey 0 == dayKey 1) = false := by decide
  have k10 : (dayKey 1 == dayKey 0) = false := by decide
  have k11 : (dayKey 1 == dayKey 1) = true := by decide
  simp [summarize, h01, stepDay, aggExampleEntries, List.lookup, k00, k01, k10, k11,
    stepTime, stepExpense, jsRecordAdd]
  norm_num

/-! ## Claim C3 (confirmed) -/

/-- C3: the aggregation enumerates every day of the inclusive range
(absent buckets contributing zero): the total time is the sum over the
range's days of each day's duration sum and the total money the sum of
each day's amount sum; on the spec's example it yields
`totalTime = 3.5`, `totalMoney = 4.5`, `taskBreakdown = {"Write": 3.5}`,
`expenseBreakdown = {"Coffee": 4.5}`. -/
theorem c3_aggregation_totals :
    (∀ (entries : Entries) (s e : Nat) (r : SummaryAcc),
      summarize entries s e = some r →
        r.totalTime = ((List.range' s (e - s + 1)).map (dayTimeTotal entries)).sum ∧
        r.totalMoney = ((List.range' s (e - s + 1)).map (dayMoneyTotal entries)).sum) ∧
    summarize aggExampleEntries 0 1 =
      some { totalTime := 7/2, totalMoney := 9/2,
             taskSummary := [("Write", 7/2)], expenseSummary := [("Coffee", 9/2)] } := by
  refine ⟨?_, summarize_aggExample⟩
  intro entries s e r hr
  unfold summarize eachDayOfInterval at hr
  by_cases hse : s ≤ e
  · rw [if_pos hse] at hr
    simp only [Option.map_some', Option.some.injEq] at hr
    obtain ⟨f1, f2, -, -⟩ := foldDays_components entries (List.range' s (e - s + 1)) {}
    rw [hr] at f1 f2
    constructor
    · rw [f1, show ({} : SummaryAcc).totalTime = (0 : ℚ) from rfl, zero_add]
    · rw [f2, show ({} : SummaryAcc).totalMoney = (0 : ℚ) from rfl, zero_add]
  · rw [if_neg hse] at hr
    simp at hr

/-- C3 witness: the universal part applied to the example aggregation. -/
theorem c3_aggregation_totals_witness :
    ({ totalTime := 7/2, totalMoney := 9/2,
       taskSummary := [("Write", 7/2)], expenseSummary := [("Coffee", 9/2)] } : SummaryAcc).totalTime
        = ((List.range' 0 (1 - 0 + 1)).map (dayTimeTotal aggExampleEntries)).sum ∧
    ({ totalTime := 7/2, totalMoney := 9/2,
       taskSummary := [("Write", 7/2)], expenseSummary := [("Coffee", 9/2)] } : SummaryAcc).totalMoney
        = ((List.range' 0 (1 - 0 + 1)).map (dayMoneyTotal aggExampleEntries)).sum :=
  c3_aggregation_totals.1 aggExampleEntries 0 1 _ summarize_aggExample

/-! ## Claim C4 (confirmed) -/

/-- C4: a range whose start is after its end produces no result (the
bounds are never swapped or clamped), and a single-day range with no
bucket for that day yields the all-zero result with empty breakdowns
rather than an error. -/
theorem c4_invalid_and_empty_range :
    (∀ (entries : Entries) (s e : Nat), e < s → summarize entries s e = none) ∧
    (∀ (entries : Entries) (s : Nat), entries.lookup (dayKey s) = none →
      summarize entries s s = some { totalTime := 0, totalMoney := 0,
                                     taskSummary := [], expenseSummary := [] }) := by
  constructor
  · intro entries s e hlt
    unfold summarize eachDayOfInterval
    rw [if_neg (by omega)]
    rfl
  · intro entries s hnone
    unfold summarize eachDayOfInterval
    rw [if_pos (Nat.le_refl s)]
    have hr : List.range' s (s - s + 1) = [s] := by
      rw [Nat.sub_self]
      rfl
    have : [s].foldl (stepDay entries) {} = ({} : SummaryAcc) := by
      simp [stepDay, hnone]
    rw [hr]
    simp only [Option.map_some', this]

/-- C4 witness: the two parts at concrete inputs. -/
theorem c4_invalid_and_empty_range_witness :
    summarize ([] : Entries) 1 0 = none ∧
    summarize ([] : Entries) 5 5 = some { totalTime := 0, totalMoney := 0,
                                          taskSummary := [], expenseSummary := [] } :=
  ⟨c4_invalid_and_empty_range.1 [] 1 0 (by omega),
   c4_invalid_and_empty_range.2 [] 5 rfl⟩

/-! ## Claim C10 (confirmed) -/

/-- C10: in every aggregation result the total time equals the sum of the
task-breakdown values and the total money the sum of the
expense-breakdown values. -/
theorem c10_totals_match_breakdowns :
    ∀ (entries : Entries) (s e : Nat) (r : SummaryAcc),
      summarize entries s e = some r →
        r.totalTime = sumValues r.taskSummary ∧
        r.totalMoney = sumValues r.expenseSummary := by
  intro entries s e r hr
  unfold summarize eachDayOfInterval at hr
  by_cases hse : s ≤ e
  · rw [if_pos hse] at hr
    simp only [Option.map_some', Option.some.injEq] at hr
    obtain ⟨f1, f2, f3, f4⟩ := foldDays_components entries (List.range' s (e - s + 1)) {}
    rw [hr] at f1 f2 f3 f4
    constructor
    · rw [f1, f3]
      rfl
    · rw [f2, f4]
      rfl
  · rw [if_neg hse] at hr
    simp at hr

/-- C10 witness: applied to the example aggregation. -/
theorem c10_totals_match_breakdowns_witness :
    (7/2 : ℚ) = sumValues [("Write", 7/2)] ∧
    (9/2 : ℚ) = sumValues [("Coffee", 9/2)] :=
  c10_totals_match_breakdowns aggExampleEntries 0 1 _ summarize_aggExample

/-! ## Ranked view lemmas -/

theorem insertRanked_mem {x z : String × ℚ} :
    ∀ {l}, z ∈ insertRanked x l → z = x ∨ z ∈ l := by
  intro l
  induction l with
  | nil =>
    intro h
    simp only [insertRanked, List.mem_singleton] at h
    exact Or.inl h
  | cons y ys ih =>
    intro h
    simp only [insertRanked] at h
    by_cases hc : x.2 ≤ y.2
    · rw [if_pos hc] at h
      rcases List.mem_cons.mp h with h1 | h2
      · exact Or.inr (h1 ▸ List.mem_cons_self y ys)
      · rcases ih h2 with h3 | h4
        · exact Or.inl h3
        · exact Or.inr (List.mem_cons_of_mem y h4)
    · rw [if_neg hc] at h
      rcases List.mem_cons.mp h with h1 | h2
      · exact Or.inl h1
      · exact Or.inr h2

theorem insertRanked_pairwise {x : String × ℚ} :
    ∀ {l}, List.Pairwise (fun p q => q.2 ≤ p.2) l →
      List.Pairwise (fun p q => q.2 ≤ p.2) (insertRanked x l) := by
  intro l
  induction l with
  | nil => intro _; simp [insertRanked]
  | cons y ys ih =>
    intro hp
    rw [List.pairwise_cons] at hp
    obtain ⟨hy, hys⟩ := hp
    simp only [insertRanked]
    by_cases hc : x.2 ≤ y.2
    · rw [if_pos hc, List.pairwise_cons]
      refine ⟨fun z hz => ?_, ih hys⟩
      rcases insertRanked_mem hz with rfl | hz2
      · exact hc
      · exact hy z hz2
    · rw [if_neg hc, List.pairwise_cons]
      refine ⟨fun z hz => ?_, List.pairwise_cons.mpr ⟨hy, hys⟩⟩
      rcases List.mem_cons.mp hz with rfl | hz2
      · exact le_of_lt (lt_of_not_le hc)
      · exact le_trans (hy z hz2) (le_of_lt (lt_of_not_le hc))

theorem insertRanked_filter (v : ℚ) {x : String × ℚ} :
    ∀ {l}, List.Pairwise (fun p q => q.2 ≤ p.2) l →
      (insertRanked x l).filter (fun p => decide (p.2 = v))
        = l.filter (fun p => decide (p.2 = v)) ++ (if x.2 = v then [x] else []) := by
  intro l
  induction l with
  | nil =>
    intro _
    by_cases hv : x.2 = v <;> simp [insertRanked, List.filter, hv]
  | cons y ys ih =>
    intro hp
    rw [List.pairwise_cons] at hp
    obtain ⟨hy, hys⟩ := hp
    simp only [insertRanked]
    by_cases hc : x.2 ≤ y.2
    · rw [if_pos hc, List.filter_cons, List.filter_cons]
      by_cases hyv : y.2 = v <;> simp [hyv, ih hys]
    · rw [if_neg hc]
      have hyx : y.2 < x.2 := lt_of_not_le hc
      by_cases hxv : x.2 = v
      · have hemp : (y :: ys).filter (fun p => decide (p.2 = v)) = [] := by
          rw [List.filter_eq_nil_iff]
          intro z hz
          have hzle : z.2 ≤ y.2 := by
            rcases List.mem_cons.mp hz with rfl | hz2
            · exact le_refl _
            · exact hy z hz2
          simp only [decide_eq_true_eq]
          intro hzv
          linarith
        rw [List.filter_cons]
        simp [hxv, hemp]
      · simp [List.filter_cons, hxv]

theorem rankedSortAux (l : List (String × ℚ)) :
    ∀ acc, List.Pairwise (fun p q => q.2 ≤ p.2) acc →
      List.Pairwise (fun p q => q.2 ≤ p.2) (l.foldl (fun a x => insertRanked x a) acc) ∧
      ∀ v : ℚ, (l.foldl (fun a x => insertRanked x a) acc).filter (fun p => decide (p.2 = v))
          = acc.filter (fun p => decide (p.2 = v)) ++ l.filter (fun p => decide (p.2 = v)) := by
  induction l with
  | nil => intro acc hp; exact ⟨hp, fun v => by simp⟩
  | cons x xs ih =>
    intro acc hp
    obtain ⟨ip, ifl⟩ := ih (insertRanked x acc) (insertRanked_pairwise hp)
    refine ⟨ip, fun v => ?_⟩
    rw [List.foldl_cons, ifl v, insertRanked_filter v hp]
    by_cases hxv : x.2 = v <;> simp [List.filter_cons, hxv, List.append_assoc]

theorem rankedSort_sorted (l : List (String × ℚ)) :
    List.Pairwise (fun p q => q.2 ≤ p.2) (rankedSort l) :=
  (rankedSortAux l [] List.Pairwise.nil).1

theorem rankedSort_stable (l : List (String × ℚ)) (v : ℚ) :
    (rankedSort l).filter (fun p => decide (p.2 = v))
      = l.filter (fun p => decide (p.2 = v)) := by
  have h := (rankedSortAux l [] List.Pairwise.nil).2 v
  simpa [rankedSort] using h

theorem objectEntriesOrder_eq_self (m : List (String × ℚ))
    (h : ∀ p ∈ m, isArrayIndexKey p.1 = false) :
    objectEntriesOrder m = m := by
  unfold objectEntriesOrder
  have h1 : m.filter (fun p => isArrayIndexKey p.1) = [] := by
    rw [List.filter_eq_nil_iff]
    intro p hp
    simp [h p hp]
  have h2 : m.filter (fun p => !isArrayIndexKey p.1) = m := by
    rw [List.filter_eq_self]
    intro p hp
    simp [h p hp]
  rw [h1, h2]
  rfl

/-! ## Claim C6 (corrected) -/

/-- C6 counterexample: two equal-valued tasks whose labels are the
array-index strings `"2"` and `"1"`, encountered in that order, are
rendered in the ranked view as `"1"` before `"2"` — `Object.entries`
hoists array-index keys in ascending numeric order, so the tie does not
respect encounter order. -/
theorem c6_counterexample :
    (summarize tieIdxEntries 0 0).map
        (fun r => (r.taskSummary, rankedView r.taskSummary))
      = some ([("2", 1), ("1", 1)], [("1", 1), ("2", 1)]) ∧
    [("1", (1 : ℚ)), ("2", 1)] ≠ [("2", (1 : ℚ)), ("1", 1)] := by
  constructor
  · have h00 : eachDayOfInterval 0 0 = some [0] := by decide
    have k00 : (dayKey 0 == dayKey 0) = true := by decide
    simp [summarize, h00, stepDay, tieIdxEntries, List.lookup, k00,
      stepTime, jsRecordAdd, rankedView, objectEntriesOrder, isArrayIndexKey,
      decimalVal, digitVal, idxSort, insertIdx, keyNum, rankedSort, insertRanked]
  · decide

/-- C6 amended: every ranked breakdown view (task and expense) is ordered
descending by accumulated value, and whenever no category label is a JS
array-index string (the canonical decimal of an integer below 2^32-1),
categories with equal accumulated values keep their original encounter
order; array-index labels are instead hoisted to the front in ascending
numeric order by `Object.entries` before the stable descending sort. -/
theorem c6_amended_ranked_stability :
    ∀ (entries : Entries) (s e : Nat) (r : SummaryAcc),
      summarize entries s e = some r →
        List.Pairwise (fun p q => q.2 ≤ p.2) (rankedView r.taskSummary) ∧
        List.Pairwise (fun p q => q.2 ≤ p.2) (rankedView r.expenseSummary) ∧
        ((∀ p ∈ r.taskSummary, isArrayIndexKey p.1 = false) → ∀ v : ℚ,
          (rankedView r.taskSummary).filter (fun p => decide (p.2 = v))
            = r.taskSummary.filter (fun p => decide (p.2 = v))) ∧
        ((∀ p ∈ r.expenseSummary, isArrayIndexKey p.1 = false) → ∀ v : ℚ,
          (rankedView r.expenseSummary).filter (fun p => decide (p.2 = v))
            = r.expenseSummary.filter (fun p => decide (p.2 = v))) := by
  intro entries s e r _
  refine ⟨rankedSort_sorted _, rankedSort_sorted _, fun h v => ?_, fun h v => ?_⟩
  · rw [rankedView, objectEntriesOrder_eq_self _ h, rankedSort_stable]
  · rw [rankedView, objectEntriesOrder_eq_self _ h, rankedSort_stable]

/-- C6 witness: the amended statement applied to a concrete aggregation
with a tie between the plain labels `"Write"` and `"Read"`. -/
theorem c6_amended_ranked_stability_witness :
    List.Pairwise (fun p q : String × ℚ => q.2 ≤ p.2)
        (rankedView [("Write", 1), ("Read", 1)]) ∧
    (rankedView [("Write", (1 : ℚ)), ("Read", 1)]).filter (fun p => decide (p.2 = 1))
      = [("Write", (1 : ℚ)), ("Read", 1)].filter (fun p => decide (p.2 = 1)) := by
  have hsum : summarize tiePlainEntries 0 0 =
      some { totalTime := 2, totalMoney := 0,
             taskSummary := [("Write", 1), ("Read", 1)], expenseSummary := [] } := by
    have h00 : eachDayOfInterval 0 0 = some [0] := by decide
    have k00 : (dayKey 0 == dayKey 0) = true := by decide
    simp [summarize, h00, stepDay, tiePlainEntries, List.lookup, k00,
      stepTime, jsRecordAdd]
    norm_num
  have h := c6_amended_ranked_stability tiePlainEntries 0 0 _ hsum
  exact ⟨h.1, h.2.2.1 (by decide) 1⟩

/-! ## CSV export lemmas -/

theorem csvFold_append (entries : Entries) (days : List Nat) :
    ∀ init : List (List Cell),
      days.foldl (fun acc d => acc ++ csvDayRows entries d) init
        = init ++ days.foldl (fun acc d => acc ++ csvDayRows entries d) [] := by
  induction days with
  | nil => intro init; simp
  | cons d ds ih =>
    intro init
    rw [List.foldl_cons, List.foldl_cons, ih (init ++ csvDayRows entries d),
      ih ([] ++ csvDayRows entries d)]
    simp [List.append_assoc]

theorem csvDayRows_length (entries : Entries) (d : Nat) :
    (csvDayRows entries d).length = dayEntryCount entries d := by
  unfold csvDayRows dayEntryCount
  cases entries.lookup (dayKey d) <;> simp

theorem csvFold_length (entries : Entries) (days : List Nat) :
    ∀ init : List (List Cell),
      (days.foldl (fun acc d => acc ++ csvDayRows entries d) init).length
        = init.length + (days.map (dayEntryCount entries)).sum := by
  induction days with
  | nil => intro init; simp
  | cons d ds ih =>
    intro init
    rw [List.foldl_cons, ih]
    simp [csvDayRows_length]
    ring

theorem csvDayRows_shape (entries : Entries) (d : Nat) (row : List Cell)
    (h : row ∈ csvDayRows entries d) :
    ∃ (typ orig sT eT : String) (val : ℚ),
      row = [Cell.str (dayKey d), Cell.str typ, Cell.str (csvEscape orig),
             Cell.num val, Cell.str sT, Cell.str eT] := by
  unfold csvDayRows at h
  cases hl : entries.lookup (dayKey d) with
  | none => rw [hl] at h; simp at h
  | some dd =>
    rw [hl] at h
    rcases List.mem_append.mp h with h1 | h2
    · obtain ⟨t, -, rfl⟩ := List.mem_map.mp h1
      exact ⟨"Time", t.task, t.startTime, t.endTime, t.duration, rfl⟩
    · obtain ⟨x, -, rfl⟩ := List.mem_map.mp h2
      exact ⟨"Expense", x.description, "", "", x.amount, rfl⟩

theorem csvFold_mem (entries : Entries) (days : List Nat) :
    ∀ (init : List (List Cell)) (row : List Cell),
      row ∈ days.foldl (fun acc d => acc ++ csvDayRows entries d) init →
      row ∈ init ∨ ∃ d ∈ days, row ∈ csvDayRows entries d := by
  induction days with
  | nil => intro init row h; exact Or.inl h
  | cons d ds ih =>
    intro init row h
    rw [List.foldl_cons] at h
    rcases ih (init ++ csvDayRows entries d) row h with h1 | ⟨d2, hd2, hrow⟩
    · rcases List.mem_append.mp h1 with h3 | h4
      · exact Or.inl h3
      · exact Or.inr ⟨d, List.mem_cons_self d ds, h4⟩
    · exact Or.inr ⟨d2, List.mem_cons_of_mem d hd2, hrow⟩

/-! ## Claim C7 (corrected) -/

/-- C7 counterexample: the export's actual header labels the value column
`Value (Amount/Hours)`, not `Value` as the claim's quoted header states;
the full concrete export of one day shows the real first row. -/
theorem c7_counterexample :
    generateCSV csvExampleEntries 0 0
      = some ("tracker_export_0-0.csv",
          [csvHeader,
           [Cell.str "0", Cell.str "Time", Cell.str "\"say \"\"hi\"\"\"", Cell.num 1,
            Cell.str "09:00", Cell.str "10:00"],
           [Cell.str "0", Cell.str "Expense", Cell.str "\"Coffee\"", Cell.num 3,
            Cell.str "", Cell.str ""]]) ∧
    csvHeader ≠ [Cell.str "Date", Cell.str "Type", Cell.str "Category/Task",
                 Cell.str "Value", Cell.str "Start Time", Cell.str "End Time"] :=
  ⟨by decide, by decide⟩

/-- C7 amended: whenever the export produces a file (it aborts when no
entry is in range), the rows are exactly one header row `Date, Type,
Category/Task, Value (Amount/Hours), Start Time, End Time` followed by
one row per entry whose date lies in the inclusive range, each data row
carrying its day key, its kind, its text field quoted with internal
double quotes doubled, and its numeric value; the filename encodes the
resolved range bounds. -/
theorem c7_amended_csv_shape :
    ∀ (entries : Entries) (s e : Nat) (fn : String) (rows : List (List Cell)),
      generateCSV entries s e = some (fn, rows) →
        rows.head? = some csvHeader ∧
        rows.length = 1 + entriesInRangeCount entries s e ∧
        fn = "tracker_export_" ++ dayKey s ++ "-" ++ dayKey e ++ ".csv" ∧
        ∀ row ∈ rows.tail, ∃ (d : Nat) (typ orig sT eT : String) (val : ℚ),
          s ≤ d ∧ d ≤ e ∧
          row = [Cell.str (dayKey d), Cell.str typ, Cell.str (csvEscape orig),
                 Cell.num val, Cell.str sT, Cell.str eT] := by
  intro entries s e fn rows h
  unfold generateCSV at h
  by_cases hse : s ≤ e
  · have hdays : eachDayOfInterval s e = some (List.range' s (e - s + 1)) := by
      unfold eachDayOfInterval
      rw [if_pos hse]
    rw [hdays] at h
    have h2 : (if (List.foldl (fun acc d => acc ++ csvDayRows entries d) [csvHeader]
          (List.range' s (e - s + 1))).length = 1
        then none
        else some ("tracker_export_" ++ dayKey s ++ "-" ++ dayKey e ++ ".csv",
          List.foldl (fun acc d => acc ++ csvDayRows entries d) [csvHeader]
            (List.range' s (e - s + 1))))
        = some (fn, rows) := h
    by_cases hlen : (List.foldl (fun acc d => acc ++ csvDayRows entries d) [csvHeader]
        (List.range' s (e - s + 1))).length = 1
    · rw [if_pos hlen] at h2
      exact absurd h2 (by simp)
    · rw [if_neg hlen] at h2
      rw [Option.some.injEq, Prod.mk.injEq] at h2
      obtain ⟨hfn, hrows⟩ := h2
      refine ⟨?_, ?_, hfn.symm, ?_⟩
      · rw [← hrows, csvFold_append]
        rfl
      · rw [← hrows, csvFold_length]
        rfl
      · intro row hrow
        rw [← hrows, csvFold_append] at hrow
        have hrow2 : row ∈ List.foldl (fun acc d => acc ++ csvDayRows entries d) []
            (List.range' s (e - s + 1)) := hrow
        rcases csvFold_mem entries (List.range' s (e - s + 1)) [] row hrow2 with h3 | ⟨d, hd, hr⟩
        · exact absurd h3 (List.not_mem_nil row)
        · obtain ⟨hd1, hd2⟩ := List.mem_range'_1.mp hd
          obtain ⟨typ, orig, sT, eT, val, hshape⟩ := csvDayRows_shape entries d row hr
          exact ⟨d, typ, orig, sT, eT, val, hd1, by omega, hshape⟩
  · have hdays : eachDayOfInterval s e = none := by
      unfold eachDayOfInterval
      rw [if_neg hse]
    rw [hdays] at h
    exact absurd h (by simp)

/-- C7 witness: the amended statement at the concrete one-day export. -/
theorem c7_amended_csv_shape_witness :
    ([csvHeader,
      [Cell.str "0", Cell.str "Time", Cell.str "\"say \"\"hi\"\"\"", Cell.num 1,
       Cell.str "09:00", Cell.str "10:00"],
      [Cell.str "0", Cell.str "Expense", Cell.str "\"Coffee\"", Cell.num 3,
       Cell.str "", Cell.str ""]] : List (List Cell)).head? = some csvHeader ∧
    ([csvHeader,
      [Cell.str "0", Cell.str "Time", Cell.str "\"say \"\"hi\"\"\"", Cell.num 1,
       Cell.str "09:00", Cell.str "10:00"],
      [Cell.str "0", Cell.str "Expense", Cell.str "\"Coffee\"", Cell.num 3,
       Cell.str "", Cell.str ""]] : List (List Cell)).length
        = 1 + entriesInRangeCount csvExampleEntries 0 0 ∧
    ("tracker_export_0-0.csv" : String)
        = "tracker_export_" ++ dayKey 0 ++ "-" ++ dayKey 0 ++ ".csv" := by
  have h := c7_amended_csv_shape csvExampleEntries 0 0 "tracker_export_0-0.csv"
    [csvHeader,
     [Cell.str "0", Cell.str "Time", Cell.str "\"say \"\"hi\"\"\"", Cell.num 1,
      Cell.str "09:00", Cell.str "10:00"],
     [Cell.str "0", Cell.str "Expense", Cell.str "\"Coffee\"", Cell.num 3,
      Cell.str "", Cell.str ""]] (by decide)
  exact ⟨h.1, h.2.1, h.2.2.1⟩

/-! ## Claim C9 (confirmed) -/

theorem legacyFoldDays_cases (entries : Entries) :
    ∀ (days : List Nat) (acc : LegacyAcc),
      (∃ acc2, legacyFoldDays acc days entries = .ok acc2) ∨
      legacyFoldDays acc days entries = .error (.referenceError "taskSummary") := by
  intro days
  induction days with
  | nil => intro acc; exact Or.inl ⟨acc, rfl⟩
  | cons d ds ih =>
    intro acc
    have hstep : (∃ a2, legacyStepDay entries acc d = .ok a2) ∨
        legacyStepDay entries acc d = .error (.referenceError "taskSummary") := by
      unfold legacyStepDay
      cases entries.lookup (dayKey d) with
      | none => exact Or.inl ⟨acc, rfl⟩
      | some dd =>
        show (∃ a2, (match legacyFoldTime acc dd.time with
            | Except.error err => Except.error err
            | Except.ok acc2 => Except.ok (dd.expense.foldl legacyStepExpense acc2))
            = Except.ok a2) ∨
          (match legacyFoldTime acc dd.time with
            | Except.error err => Except.error err
            | Except.ok acc2 => Except.ok (dd.expense.foldl legacyStepExpense acc2))
            = Except.error (JsError.referenceError "taskSummary")
        cases hdt : dd.time with
        | nil => exact Or.inl ⟨dd.expense.foldl legacyStepExpense acc, rfl⟩
        | cons t ts => exact Or.inr rfl
    rcases hstep with ⟨a2, ha⟩ | ha
    · simp only [legacyFoldDays, ha]
      exact ih a2
    · right
      simp [legacyFoldDays, ha]

/-- C9: the `SummaryView` variant of src/unnamed/part_000 can never
produce a summary — for every entries map and (valid) resolved range its
evaluation raises `ReferenceError` for the undeclared `taskSummary`,
either in the aggregation loop (at the first time entry) or in the
rendered task breakdown. -/
theorem c9_legacy_reference_error :
    ∀ (entries : Entries) (s e : Nat), s ≤ e →
      summaryViewLegacy entries s e = .error (.referenceError "taskSummary") := by
  intro entries s e hse
  unfold summaryViewLegacy eachDayOfInterval
  rw [if_pos hse]
  rcases legacyFoldDays_cases entries (List.range' s (e - s + 1)) {} with ⟨a2, ha⟩ | ha
  · simp only [ha]
  · simp only [ha]

/-- C9 witness: at the empty entries map over a one-day range. -/
theorem c9_legacy_reference_error_witness :
    summaryViewLegacy ([] : Entries) 0 0 = .error (.referenceError "taskSummary") :=
  c9_legacy_reference_error [] 0 0 (Nat.le_refl 0)

end Tracker

